import Mathlib

/-!
# Product service: route handlers of `src/index.js`

A shallow embedding of the five Express route handlers of `src/index.js`
(create, list, get-one, update, delete) over an explicit state made of the
`products` table and the content of the S3 bucket.  Every awaited call to the
database or to S3 either resolves or rejects; which one happens is read from
the environment `Env`, so the failure paths of the handlers are part of the
model.
-/

namespace ProductService

/-! ## JavaScript values -/

/-- A JavaScript number, as far as its truthiness is concerned: a finite
value `± mantissa * 2 ^ exponent` (so `+0` and `-0` are the finite numbers of
mantissa `0`), an infinity, or `NaN`. -/
inductive JsNum where
  | finite (negative : Bool) (mantissa : Nat) (exponent : Int)
  | infinity (negative : Bool)
  | nan
  deriving DecidableEq, Repr

/-- A value read from `req.body`: `undefined` is what destructuring yields for
an absent field, `compound` stands for an array or an object (given by its JSON
text). -/
inductive JsVal where
  | undefined
  | null
  | bool (b : Bool)
  | num (n : JsNum)
  | str (s : String)
  | compound (json : String)
  deriving DecidableEq, Repr

/-- ToBoolean on numbers: `+0`, `-0` and `NaN` are falsy. -/
def JsNum.truthy : JsNum → Bool
  | .finite _ m _ => m != 0
  | .infinity _ => true
  | .nan => false

/-- ToBoolean: the falsy values are `undefined`, `null`, `false`, `±0`, `NaN`
and the empty string. -/
def JsVal.truthy : JsVal → Bool
  | .undefined => false
  | .null => false
  | .bool b => b
  | .num n => n.truthy
  | .str s => s != ""
  | .compound _ => true

/-- The number `0`. -/
def JsNum.zero : JsNum := .finite false 0 0

/-- An integer as a JavaScript number. -/
def JsNum.ofInt (i : Int) : JsNum := .finite (decide (i < 0)) i.natAbs 0

/-! ## `String.prototype.split` with a string separator -/

/-- Scan of `split`: `skip` counts the characters of a matched separator that
are still to be consumed, `acc` holds the current piece in reverse.  At each
position outside a match, a separator starting there closes the current piece
and opens a new one; the end of the input closes the last piece. -/
def splitGo (sep : List Char) : List Char → Nat → List Char → List (List Char)
  | [], _, acc => [acc.reverse]
  | _ :: cs, skip + 1, acc => splitGo sep cs skip acc
  | c :: cs, 0, acc =>
    if sep.isPrefixOf (c :: cs) then
      acc.reverse :: splitGo sep cs (sep.length - 1) []
    else
      splitGo sep cs 0 (c :: acc)

/-- The pieces of `s.split(sep)` as character lists: for the empty separator
one piece per character, otherwise the pieces between the successive
non-overlapping occurrences of `sep` found from the left. -/
def splitChars (s sep : List Char) : List (List Char) :=
  if sep = [] then s.map (fun c => [c]) else splitGo sep s 0 []

/-- The JavaScript expression `s.split(sep)`. -/
def jsSplit (s sep : String) : List String :=
  (splitChars s.toList sep.toList).map String.mk

/-! ## State: the `products` table and the S3 bucket -/

/-- A row of the `products` table: the columns `id`, `name`, `price` and
`fileUrl` (SQL `NULL` is `none`). -/
structure Row where
  id : Int
  name : JsVal
  price : JsVal
  fileUrl : Option String
  deriving DecidableEq, Repr

/-- Modelled from the spec: the database behind `db.execute` (`src/db.js` and
the schema are not part of the sources).  The table is the sequence of its
rows; `autoIncrement` is the id the storage layer gives to the next inserted
row ("generated by the storage layer on insert, immutable, unique"). -/
structure Db where
  rows : List Row
  autoIncrement : Int
  deriving DecidableEq, Repr

/-- Modelled from the spec: a bound statement parameter; an `undefined`
parameter reaches the table as `NULL` ("storage layer would receive NULLs"),
every other value is stored as given. -/
def Db.bind : JsVal → JsVal
  | .undefined => .null
  | v => v

/-- Modelled from the spec: `INSERT INTO products (name, price) VALUES (?, ?)`;
the new row has a `NULL` fileUrl and the generated id, returned as
`insertId`. -/
def Db.insert (db : Db) (name price : JsVal) : Db × Int :=
  ({ rows := db.rows ++ [⟨db.autoIncrement, Db.bind name, Db.bind price, none⟩],
     autoIncrement := db.autoIncrement + 1 },
   db.autoIncrement)

/-- Modelled from the spec: `UPDATE products SET fileUrl=? WHERE id=?`. -/
def Db.setFileUrl (db : Db) (fileUrl : String) (id : Int) : Db :=
  { db with rows := db.rows.map fun r =>
      if r.id = id then { r with fileUrl := some fileUrl } else r }

/-- Modelled from the spec: `SELECT * FROM products WHERE id = ?`. -/
def Db.selectById (db : Db) (id : Int) : List Row :=
  db.rows.filter fun r => decide (r.id = id)

/-- Modelled from the spec: `UPDATE products SET name=?, price=? WHERE id=?`. -/
def Db.setNamePrice (db : Db) (name price : JsVal) (id : Int) : Db :=
  { db with rows := db.rows.map fun r =>
      if r.id = id then { r with name := Db.bind name, price := Db.bind price } else r }

/-- Modelled from the spec: `DELETE FROM products WHERE id=?`. -/
def Db.deleteById (db : Db) (id : Int) : Db :=
  { db with rows := db.rows.filter fun r => decide (r.id ≠ id) }

/-- The document `productJson` built by the create handler. -/
structure ProductJson where
  id : Int
  name : JsVal
  price : JsVal
  createdAt : String
  deriving DecidableEq, Repr

/-- An object of the bucket: its body is `JSON.stringify(productJson)`, kept
as the document it serialises. -/
structure S3Object where
  body : ProductJson
  contentType : String
  deriving DecidableEq, Repr

/-- The content of the bucket `S3_BUCKET_NAME`: objects by key. -/
abbrev Bucket := List (String × S3Object)

/-- The object stored under a key, if any. -/
def Bucket.get (b : Bucket) (key : String) : Option S3Object :=
  (b.find? fun e => e.1 == key).map (·.2)

/-- Effect of a successful `PutObjectCommand`: the object replaces whatever
was stored under the key. -/
def Bucket.put (b : Bucket) (key : String) (obj : S3Object) : Bucket :=
  (key, obj) :: b.filter fun e => e.1 != key

/-- Effect of a successful `DeleteObjectCommand`; `Key: undefined` (`none`)
names no object. -/
def Bucket.delete (b : Bucket) : Option String → Bucket
  | none => b
  | some key => b.filter fun e => e.1 != key

/-- The state the handlers act on. -/
structure World where
  db : Db
  s3 : Bucket
  deriving DecidableEq, Repr

/-- What a request reads from outside the state: the configuration
(`process.env`), the clock, and whether each awaited call resolves.
`dbRejects n` tells whether the `n`-th `db.execute` of the request (counted
from 0) rejects, `s3Rejects` whether its `s3.send` does. -/
structure Env where
  bucket : String
  region : String
  now : String
  dbRejects : Nat → Bool
  s3Rejects : Bool

/-! ## Requests, calls and responses -/

/-- The fields `name` and `price` destructured from `req.body`. -/
structure ReqBody where
  name : JsVal
  price : JsVal
  deriving DecidableEq, Repr

/-- A call issued to the database or to S3. -/
inductive Call where
  | dbInsert (name price : JsVal)
  | s3Put (key : String) (body : ProductJson) (contentType : String)
  | dbSetFileUrl (fileUrl : String) (id : Int)
  | dbSelectAll
  | dbSelect (id : Int)
  | dbSetNamePrice (name price : JsVal) (id : Int)
  | dbSelectFileUrl (id : Int)
  | s3Delete (key : Option String)
  | dbDelete (id : Int)
  deriving DecidableEq, Repr

/-- A JSON response body. -/
inductive Body where
  | error (error : String)
  | message (message : String)
  | created (message : String) (data : ProductJson) (fileUrl : String)
  | row (row : Row)
  | rows (rows : List Row)
  deriving DecidableEq, Repr

/-- An exception that no handler catches. -/
inductive JsError where
  | typeError
  | rejected
  deriving DecidableEq, Repr

/-- How a handler ends: with a response (`res.json` alone answers 200), or
with an exception it does not catch. -/
inductive Result where
  | sent (status : Nat) (body : Body)
  | unhandled (e : JsError)
  deriving DecidableEq, Repr

/-- A handler run: the state it leaves, the calls it issued in order, and how
it ended. -/
structure Outcome where
  world : World
  calls : List Call
  result : Result
  deriving DecidableEq, Repr

/-! ## The handlers -/

/-- The template literal for `fileName` in the create handler. -/
def fileName (id : Int) : String :=
  "product_" ++ toString id ++ ".json"

/-- The template literal for `fileUrl` in the create handler. -/
def publicUrl (bucket region fileName : String) : String :=
  "https://" ++ bucket ++ ".s3." ++ region ++ ".amazonaws.com/" ++ fileName

/-- The expression `fileUrl.split(".com/")[1]` of the delete handler, for a
string `fileUrl`; `none` is `undefined`. -/
def deleteKey (fileUrl : String) : Option String :=
  (jsSplit fileUrl ".com/")[1]?

/-- The response of the `catch` block of the create handler. -/
def internalError : Result :=
  .sent 500 (.error "Error interno del servidor")

/-- Handler of `POST /products`. -/
def createProduct (env : Env) (w : World) (body : ReqBody) : Outcome :=
  let name := body.name
  let price := body.price
  if !name.truthy || !price.truthy then
    ⟨w, [], .sent 400 (.error "Faltan datos")⟩
  else
    let c1 := Call.dbInsert name price
    if env.dbRejects 0 then
      ⟨w, [c1], internalError⟩
    else
      let (db1, id) := w.db.insert name price
      let productJson : ProductJson := ⟨id, name, price, env.now⟩
      let fileName := fileName id
      let c2 := Call.s3Put fileName productJson "application/json"
      if env.s3Rejects then
        ⟨⟨db1, w.s3⟩, [c1, c2], internalError⟩
      else
        let s31 := w.s3.put fileName ⟨productJson, "application/json"⟩
        let fileUrl := publicUrl env.bucket env.region fileName
        let c3 := Call.dbSetFileUrl fileUrl id
        if env.dbRejects 1 then
          ⟨⟨db1, s31⟩, [c1, c2, c3], internalError⟩
        else
          ⟨⟨db1.setFileUrl fileUrl id, s31⟩, [c1, c2, c3],
            .sent 200 (.created "Producto creado + JSON generado en S3" productJson fileUrl)⟩

/-- Handler of `GET /products`. -/
def listProducts (env : Env) (w : World) : Outcome :=
  if env.dbRejects 0 then
    ⟨w, [.dbSelectAll], .unhandled .rejected⟩
  else
    ⟨w, [.dbSelectAll], .sent 200 (.rows w.db.rows)⟩

/-- Handler of `GET /products/:id`; `id` is the integer the path parameter
denotes. -/
def getProduct (env : Env) (w : World) (id : Int) : Outcome :=
  if env.dbRejects 0 then
    ⟨w, [.dbSelect id], .unhandled .rejected⟩
  else
    match w.db.selectById id with
    | [] => ⟨w, [.dbSelect id], .sent 404 (.error "Producto no encontrado")⟩
    | r :: _ => ⟨w, [.dbSelect id], .sent 200 (.row r)⟩

/-- Handler of `PUT /products/:id`. -/
def updateProduct (env : Env) (w : World) (id : Int) (body : ReqBody) : Outcome :=
  let name := body.name
  let price := body.price
  if env.dbRejects 0 then
    ⟨w, [.dbSetNamePrice name price id], .unhandled .rejected⟩
  else
    ⟨⟨w.db.setNamePrice name price id, w.s3⟩, [.dbSetNamePrice name price id],
      .sent 200 (.message "Producto actualizado")⟩

/-- Handler of `DELETE /products/:id`. -/
def deleteProduct (env : Env) (w : World) (id : Int) : Outcome :=
  let c1 := Call.dbSelectFileUrl id
  if env.dbRejects 0 then
    ⟨w, [c1], .unhandled .rejected⟩
  else
    match w.db.selectById id with
    | [] => ⟨w, [c1], .sent 404 (.error "Producto no encontrado")⟩
    | r :: _ =>
      match r.fileUrl with
      | none => ⟨w, [c1], .unhandled .typeError⟩
      | some fileUrl =>
        let key := deleteKey fileUrl
        let c2 := Call.s3Delete key
        if env.s3Rejects then
          ⟨w, [c1, c2], .unhandled .rejected⟩
        else
          let s31 := w.s3.delete key
          let c3 := Call.dbDelete id
          if env.dbRejects 1 then
            ⟨⟨w.db, s31⟩, [c1, c2, c3], .unhandled .rejected⟩
          else
            ⟨⟨w.db.deleteById id, s31⟩, [c1, c2, c3],
              .sent 200 (.message "Producto eliminado + archivo JSON eliminado de S3")⟩

/-! ## Notions used to state the properties -/

/-- The string `sep` occurs in `s` as a substring. -/
def Occurs (sep s : String) : Prop :=
  sep.toList <:+: s.toList

instance (sep s : String) : Decidable (Occurs sep s) :=
  inferInstanceAs (Decidable (sep.toList <:+: s.toList))

/-- No occurrence of `sep` in `pre ++ t` starts inside `pre`. -/
def NoMatchIn (sep pre t : List Char) : Prop :=
  ∀ a b, pre = a ++ b → b ≠ [] → ¬ sep <+: b ++ t

/-- Everything that follows the first occurrence of `sep`, if `sep` occurs. -/
def remainderAfterFirst (sep : List Char) : List Char → Option (List Char)
  | [] => if sep = [] then some [] else none
  | c :: cs =>
    if sep.isPrefixOf (c :: cs) then some ((c :: cs).drop sep.length)
    else remainderAfterFirst sep cs

/-- The key as the specification words it: the remainder of `fileUrl` after the
literal substring `.com/`. -/
def remainderKey (fileUrl : String) : Option String :=
  (remainderAfterFirst ".com/".toList fileUrl.toList).map String.mk

/-- State invariant of the service for a fixed configuration: the ids of the
table are below the auto-increment counter, no object is stored under the file
name of an id that is still to be generated, and a non-null `fileUrl` is the
public URL of the file named after the row's id. -/
def World.Consistent (bucket region : String) (w : World) : Prop :=
  (∀ r ∈ w.db.rows, r.id < w.db.autoIncrement)
    ∧ (∀ k : Int, w.db.autoIncrement ≤ k → w.s3.get (fileName k) = none)
    ∧ (∀ r ∈ w.db.rows, ∀ url, r.fileUrl = some url →
        url = publicUrl bucket region (fileName r.id))

/-- Decimal digits read back as a number. -/
def readDecimal (cs : List Char) (start : Nat) : Nat :=
  cs.foldl (fun a c => 10 * a + (c.toNat - 48)) start

/-- An environment in which every call resolves. -/
def Env.calm (bucket region now : String) : Env :=
  ⟨bucket, region, now, fun _ => false, false⟩

/-- The empty table, with ids starting at 1, and the empty bucket. -/
def World.init : World := ⟨⟨[], 1⟩, []⟩

/-- The states the service reaches from the empty state by create, update and
delete requests under a fixed bucket name and region, whatever calls reject
(the read-only handlers return the state they were given). -/
inductive Reachable (bucket region : String) : World → Prop where
  | init : Reachable bucket region World.init
  | create (env : Env) (w : World) (body : ReqBody) :
      env.bucket = bucket → env.region = region → Reachable bucket region w →
      Reachable bucket region (createProduct env w body).world
  | update (env : Env) (w : World) (id : Int) (body : ReqBody) :
      Reachable bucket region w → Reachable bucket region (updateProduct env w id body).world
  | delete (env : Env) (w : World) (id : Int) :
      Reachable bucket region w → Reachable bucket region (deleteProduct env w id).world

/-- A sample configuration in which every call resolves. -/
def sampleEnv : Env := Env.calm "shop" "us-east-1" "2024-01-01T00:00:00.000Z"

/-- The sample configuration with a rejecting upload. -/
def uploadFailsEnv : Env := { sampleEnv with s3Rejects := true }

/-- A sample request body. -/
def widget : ReqBody := ⟨.str "Widget", .num (.ofInt 5)⟩

/-- The state after creating `widget` in the empty state. -/
def sampleWorld : World := (createProduct sampleEnv World.init widget).world

/-- The state after a create whose upload was rejected: row 1 has no fileUrl. -/
def halfCreatedWorld : World := (createProduct uploadFailsEnv World.init widget).world

/-! ## Lemmas on decimal rendering -/

theorem digitChar_isDigit (n : Nat) :
    Nat.digitChar (n % 10) ≠ '/' ∧ Nat.digitChar (n % 10) ≠ '-'
      ∧ (Nat.digitChar (n % 10)).toNat - 48 = n % 10 := by
  have h : ∀ m, m < 10 →
      Nat.digitChar m ≠ '/' ∧ Nat.digitChar m ≠ '-' ∧ (Nat.digitChar m).toNat - 48 = m := by
    decide
  exact h _ (Nat.mod_lt _ (by decide))

theorem toDigitsCore_avoids (c : Char) (hc : c = '/' ∨ c = '-') :
    ∀ (fuel n : Nat) (ds : List Char), c ∉ ds → c ∉ Nat.toDigitsCore 10 fuel n ds := by
  intro fuel
  induction fuel with
  | zero => intro n ds h; simpa [Nat.toDigitsCore] using h
  | succ f ih =>
    intro n ds h
    have hd : c ∉ Nat.digitChar (n % 10) :: ds := by
      simp only [List.mem_cons, not_or]
      refine ⟨fun e => ?_, h⟩
      rcases hc with rfl | rfl
      · exact (digitChar_isDigit n).1 e.symm
      · exact (digitChar_isDigit n).2.1 e.symm
    simp only [Nat.toDigitsCore]
    split_ifs
    · exact hd
    · exact ih _ _ hd

theorem natRepr_avoids (c : Char) (hc : c = '/' ∨ c = '-') (n : Nat) :
    c ∉ (Nat.repr n).toList := by
  simp only [Nat.repr, Nat.toDigits, List.asString, String.toList]
  exact toDigitsCore_avoids c hc _ _ _ (by simp)

theorem intToString_noSlash (i : Int) : '/' ∉ (toString i).toList := by
  cases i with
  | ofNat n => exact natRepr_avoids _ (Or.inl rfl) n
  | negSucc n =>
    show '/' ∉ ("-" ++ Nat.repr (n + 1)).toList
    simp only [String.toList, String.data_append, List.mem_append, not_or]
    exact ⟨by decide, natRepr_avoids _ (Or.inl rfl) _⟩

theorem fileName_noSlash (id : Int) : '/' ∉ (fileName id).toList := by
  simp only [fileName, String.toList, String.data_append, List.mem_append, not_or]
  exact ⟨⟨by decide, intToString_noSlash id⟩, by decide⟩

theorem readDecimal_toDigitsCore : ∀ (fuel n : Nat) (ds : List Char), n < fuel →
    readDecimal (Nat.toDigitsCore 10 fuel n ds) 0 = readDecimal ds n := by
  intro fuel
  induction fuel with
  | zero => intro n ds h; omega
  | succ f ih =>
    intro n ds h
    have hd := (digitChar_isDigit n).2.2
    simp only [Nat.toDigitsCore]
    split_ifs with h0
    · have : n % 10 = n := Nat.mod_eq_of_lt (by omega)
      simp only [readDecimal, List.foldl_cons, hd, Nat.mul_zero, Nat.zero_add]
      rw [this]
    · rw [ih (n / 10) _ (by omega)]
      simp only [readDecimal, List.foldl_cons, hd]
      congr 1
      omega

theorem natRepr_injective {a b : Nat} (h : Nat.repr a = Nat.repr b) : a = b := by
  have hd : Nat.toDigits 10 a = Nat.toDigits 10 b := by
    have := congrArg String.data h
    simpa [Nat.repr, List.asString] using this
  have ha := readDecimal_toDigitsCore (a + 1) a [] (by omega)
  have hb := readDecimal_toDigitsCore (b + 1) b [] (by omega)
  simp only [Nat.toDigits] at hd
  rw [hd, hb] at ha
  simpa [readDecimal] using ha.symm

theorem intToString_injective {a b : Int} (h : toString a = toString b) : a = b := by
  have hneg : ∀ (m n : Nat), toString (Int.ofNat m) ≠ toString (Int.negSucc n) := by
    intro m n e
    have e2 : Nat.repr m = "-" ++ Nat.repr (n + 1) := e
    have hm := natRepr_avoids '-' (Or.inr rfl) m
    rw [e2] at hm
    simp [String.toList, String.data_append] at hm
  cases a with
  | ofNat m =>
    cases b with
    | ofNat n =>
      have e : Nat.repr m = Nat.repr n := h
      rw [natRepr_injective e]
    | negSucc n => exact absurd h (hneg m n)
  | negSucc m =>
    cases b with
    | ofNat n => exact absurd h.symm (hneg n m)
    | negSucc n =>
      have e : "-" ++ Nat.repr (m + 1) = "-" ++ Nat.repr (n + 1) := h
      have e2 : Nat.repr (m + 1) = Nat.repr (n + 1) := by
        have := congrArg String.data e
        simp only [String.data_append, List.append_cancel_left_eq] at this
        exact String.ext this
      have := natRepr_injective e2
      have : m = n := by omega
      rw [this]

theorem fileName_injective {a b : Int} (h : fileName a = fileName b) : a = b := by
  apply intToString_injective
  have := congrArg String.data h
  simp only [fileName, String.data_append, List.append_cancel_left_eq,
    List.append_cancel_right_eq] at this
  exact String.ext this

/-! ## Lemmas on `split` -/

theorem splitGo_skip (sep : List Char) : ∀ (xs rest acc : List Char),
    splitGo sep (xs ++ rest) xs.length acc = splitGo sep rest 0 acc := by
  intro xs
  induction xs with
  | nil => intro rest acc; cases rest <;> simp [splitGo]
  | cons x xs ih => intro rest acc; simpa [splitGo] using ih rest acc

theorem NoMatchIn.tail {sep : List Char} {c : Char} {cs t : List Char}
    (h : NoMatchIn sep (c :: cs) t) : NoMatchIn sep cs t := by
  intro a b hab hb
  exact h (c :: a) b (by simp [hab]) hb

theorem NoMatchIn.head {sep : List Char} {c : Char} {cs t : List Char}
    (h : NoMatchIn sep (c :: cs) t) : sep.isPrefixOf (c :: (cs ++ t)) = false := by
  have h0 : ¬ sep <+: c :: (cs ++ t) := by simpa using h [] (c :: cs) rfl (by simp)
  rw [Bool.eq_false_iff]
  intro hp
  exact h0 (List.isPrefixOf_iff_prefix.mp hp)

theorem splitGo_scan (sep : List Char) : ∀ (pre t acc : List Char),
    NoMatchIn sep pre t →
      splitGo sep (pre ++ t) 0 acc = splitGo sep t 0 (pre.reverse ++ acc) := by
  intro pre
  induction pre with
  | nil => intro t acc _; simp
  | cons c cs ih =>
    intro t acc h
    rw [List.cons_append, splitGo, if_neg (by rw [h.head]; simp), ih t (c :: acc) h.tail]
    simp

theorem noMatchIn_of_absent {sep s : List Char} (h : ¬ sep <:+: s) :
    NoMatchIn sep s [] := by
  intro a b hab _ hp
  apply h
  rw [hab]
  obtain ⟨u, hu⟩ := hp
  exact ⟨a, u, by simp at hu; simp [hu]⟩

theorem splitGo_noMatch (sep : List Char) (s acc : List Char) (h : ¬ sep <:+: s) :
    splitGo sep s 0 acc = [acc.reverse ++ s] := by
  have := splitGo_scan sep s [] acc (noMatchIn_of_absent h)
  simpa [splitGo] using this

/-- An occurrence that starts inside `pre` in `pre ++ sep ++ rest` lies inside
`pre ++ sep.dropLast`. -/
theorem noMatchIn_of_first {sep pre rest : List Char}
    (h : ¬ sep <:+: pre ++ sep.dropLast) : NoMatchIn sep pre (sep ++ rest) := by
  intro a b hab hb hp
  apply h
  have hlen : sep.length ≤ (b ++ sep.dropLast).length := by
    have : 0 < b.length := List.length_pos.mpr hb
    simp only [List.length_append, List.length_dropLast]
    omega
  have hp2 : sep <+: b ++ sep.dropLast := by
    rw [List.prefix_iff_eq_take] at hp ⊢
    have e : b ++ (sep ++ rest)
        = (b ++ sep.dropLast) ++ (sep.drop (sep.length - 1) ++ rest) := by
      rw [List.dropLast_eq_take, List.append_assoc b,
        ← List.append_assoc (List.take _ sep), List.take_append_drop]
    rw [e, List.take_append_of_le_length hlen] at hp
    exact hp
  obtain ⟨u, hu⟩ := hp2
  exact ⟨a, u, by rw [hab]; simp [List.append_assoc, hu]⟩

theorem splitGo_first (sep pre rest acc : List Char) (hsep : sep ≠ [])
    (h : ¬ sep <:+: pre ++ sep.dropLast) :
    splitGo sep (pre ++ sep ++ rest) 0 acc
      = (acc.reverse ++ pre) :: splitGo sep rest 0 [] := by
  rw [List.append_assoc, splitGo_scan sep pre (sep ++ rest) acc (noMatchIn_of_first h)]
  obtain ⟨c, cs, rfl⟩ := List.exists_cons_of_ne_nil hsep
  rw [List.cons_append, splitGo, if_pos (by simp [List.isPrefixOf_iff_prefix])]
  simp only [List.length_cons, Nat.add_sub_cancel]
  simp [splitGo_skip]

theorem remainderAfterFirst_scan (sep : List Char) (hsep : sep ≠ []) :
    ∀ (pre rest : List Char), NoMatchIn sep pre (sep ++ rest) →
      remainderAfterFirst sep (pre ++ sep ++ rest) = some rest := by
  intro pre
  induction pre with
  | nil =>
    intro rest _
    obtain ⟨c, cs, rfl⟩ := List.exists_cons_of_ne_nil hsep
    rw [List.nil_append, List.cons_append, remainderAfterFirst,
      if_pos (by simp [List.isPrefixOf_iff_prefix])]
    simp
  | cons c cs ih =>
    intro rest h
    have h0 := h.head
    rw [← List.append_assoc] at h0
    rw [List.cons_append, List.cons_append, remainderAfterFirst, if_neg (by rw [h0]; simp),
      ih rest h.tail]

theorem jsSplit_of_first (pre rest : String) (h : ¬ Occurs ".com/" (pre ++ ".com")) :
    jsSplit (pre ++ ".com/" ++ rest) ".com/" = pre :: jsSplit rest ".com/" := by
  have h2 : ¬ ".com/".toList <:+: pre.toList ++ (".com/".toList).dropLast := by
    simpa [Occurs, String.toList] using h
  have := splitGo_first ".com/".toList pre.toList rest.toList [] (by decide) h2
  simp only [jsSplit, splitChars, String.toList, String.data_append] at this ⊢
  rw [if_neg (by decide), this]
  simp

theorem jsSplit_of_not_occurs (s : String) (h : ¬ Occurs ".com/" s) :
    jsSplit s ".com/" = [s] := by
  have := splitGo_noMatch ".com/".toList s.toList [] h
  simp only [jsSplit, splitChars, String.toList] at this ⊢
  rw [if_neg (by decide), this]
  simp

/-- The specification's remainder is what follows the first occurrence. -/
theorem remainderKey_of_first (pre rest : String) (h : ¬ Occurs ".com/" (pre ++ ".com")) :
    remainderKey (pre ++ ".com/" ++ rest) = some rest := by
  have h2 : ¬ ".com/".toList <:+: pre.toList ++ (".com/".toList).dropLast := by
    simpa [Occurs, String.toList] using h
  have := remainderAfterFirst_scan ".com/".toList (by decide) pre.toList rest.toList
    (noMatchIn_of_first h2)
  simp only [remainderKey, String.toList, String.data_append] at this ⊢
  rw [this]
  rfl

theorem not_occurs_of_noSlash (s : String) (h : '/' ∉ s.toList) : ¬ Occurs ".com/" s := by
  intro hocc
  exact h (hocc.subset (by decide))

theorem not_occurs_urlPrefix (bucket region : String)
    (hb : '/' ∉ bucket.toList) (hr : '/' ∉ region.toList) :
    ¬ Occurs ".com/" ("https://" ++ bucket ++ ".s3." ++ region ++ ".amazonaws" ++ ".com") := by
  intro hocc
  have hocc2 : ['.', 'c', 'o', 'm', '/'] <:+:
      'h' :: 't' :: 't' :: 'p' :: 's' :: ':' :: '/' :: '/' ::
        (bucket.toList ++ ".s3.".toList ++ region.toList ++ ".amazonaws".toList
          ++ ".com".toList) := by
    simpa [Occurs, String.toList, String.data_append] using hocc
  simp only [List.infix_cons_iff, List.cons_prefix_cons] at hocc2
  simp at hocc2
  have hmem := hocc2.subset (show '/' ∈ ['.', 'c', 'o', 'm', '/'] by decide)
  simp only [String.toList] at hb hr
  simp [hb, hr] at hmem

theorem publicUrl_split (bucket region name : String) :
    publicUrl bucket region name
      = ("https://" ++ bucket ++ ".s3." ++ region ++ ".amazonaws") ++ ".com/" ++ name := by
  apply String.ext
  simp [publicUrl, String.data_append]

theorem deleteKey_publicUrl_fileName (bucket region : String) (id : Int)
    (hb : '/' ∉ bucket.toList) (hr : '/' ∉ region.toList) :
    deleteKey (publicUrl bucket region (fileName id)) = some (fileName id) := by
  rw [deleteKey, publicUrl_split, jsSplit_of_first _ _ (not_occurs_urlPrefix _ _ hb hr),
    jsSplit_of_not_occurs _ (not_occurs_of_noSlash _ (fileName_noSlash id))]
  rfl

/-! ## Lemmas on the state operations -/

theorem bind_of_truthy {v : JsVal} (h : v.truthy = true) : Db.bind v = v := by
  cases v <;> simp_all [Db.bind, JsVal.truthy]

theorem truthy_eq_false_iff (v : JsVal) :
    v.truthy = false ↔ v = .undefined ∨ v = .null ∨ v = .bool false
      ∨ (∃ neg e, v = .num (.finite neg 0 e)) ∨ v = .num .nan ∨ v = .str "" := by
  cases v with
  | num n => cases n <;> simp [JsVal.truthy, JsNum.truthy]
  | _ => simp [JsVal.truthy]

theorem publicUrl_fileName (bucket region : String) (id : Int) :
    publicUrl bucket region (fileName id)
      = "https://" ++ bucket ++ ".s3." ++ region ++ ".amazonaws.com/product_" ++ toString id
          ++ ".json" := by
  apply String.ext
  simp [publicUrl, fileName, String.data_append]

theorem selectById_insert_setFileUrl (db : Db) (name price : JsVal) (url : String)
    (hfresh : ∀ r ∈ db.rows, r.id < db.autoIncrement) :
    ((db.insert name price).1.setFileUrl url db.autoIncrement).selectById db.autoIncrement
      = [⟨db.autoIncrement, Db.bind name, Db.bind price, some url⟩] := by
  have hold : ∀ r ∈ db.rows, ¬ r.id = db.autoIncrement := fun r hr => ne_of_lt (hfresh r hr)
  simp only [Db.selectById, Db.setFileUrl, Db.insert, List.map_append, List.filter_append,
    List.map_cons, List.map_nil]
  have h1 : List.filter (fun r : Row => decide (r.id = db.autoIncrement))
      (List.map (fun r : Row => if r.id = db.autoIncrement then { r with fileUrl := some url } else r)
        db.rows) = [] := by
    rw [List.filter_eq_nil_iff]
    intro r hr
    obtain ⟨r0, hr0, rfl⟩ := List.mem_map.mp hr
    simp [hold r0 hr0]
  rw [h1]
  simp


/-! ## The create handler -/

/-- C1: a create request with truthy `name` and `price` whose insert, upload
and fileUrl update all resolve is answered 200 with
`{message, data: {id, name, price, createdAt}, fileUrl}`, where `id` is the
generated id and `fileUrl` is
`"https://" + bucket + ".s3." + region + ".amazonaws.com/product_" + id + ".json"`;
a get-one for that id on the resulting state returns the row with the same
name and price and that fileUrl.  The table is one whose ids are below the
auto-increment counter. -/
theorem create_success (env : Env) (w : World) (body : ReqBody)
    (hname : body.name.truthy = true) (hprice : body.price.truthy = true)
    (hinsert : env.dbRejects 0 = false) (hupload : env.s3Rejects = false)
    (hupdate : env.dbRejects 1 = false)
    (hfresh : ∀ r ∈ w.db.rows, r.id < w.db.autoIncrement)
    (env2 : Env) (hselect : env2.dbRejects 0 = false) :
    let id := (w.db.insert body.name body.price).2
    let fileUrl := "https://" ++ env.bucket ++ ".s3." ++ env.region
      ++ ".amazonaws.com/product_" ++ toString id ++ ".json"
    let out := createProduct env w body
    out.result = .sent 200 (.created "Producto creado + JSON generado en S3"
        ⟨id, body.name, body.price, env.now⟩ fileUrl)
      ∧ (getProduct env2 out.world id).result
          = .sent 200 (.row ⟨id, body.name, body.price, some fileUrl⟩) := by
  intro id fileUrl out
  have hout : out = ⟨⟨(w.db.insert body.name body.price).1.setFileUrl fileUrl id,
        w.s3.put (fileName id) ⟨⟨id, body.name, body.price, env.now⟩, "application/json"⟩⟩,
      [.dbInsert body.name body.price,
       .s3Put (fileName id) ⟨id, body.name, body.price, env.now⟩ "application/json",
       .dbSetFileUrl fileUrl id],
      .sent 200 (.created "Producto creado + JSON generado en S3"
        ⟨id, body.name, body.price, env.now⟩ fileUrl)⟩ := by
    simp only [out, createProduct, hname, hprice, hinsert, hupload, hupdate, id, fileUrl,
      publicUrl_fileName]
    simp
  refine ⟨by rw [hout], ?_⟩
  rw [hout]
  simp only [getProduct, hselect]
  have := selectById_insert_setFileUrl w.db body.name body.price fileUrl hfresh
  simp only [id, Db.insert] at this ⊢
  rw [this, bind_of_truthy hname, bind_of_truthy hprice]
  simp

/-- Witness: creating `widget` in the empty state. -/
theorem create_success_witness :
    (createProduct sampleEnv World.init widget).result
        = .sent 200 (.created "Producto creado + JSON generado en S3"
            ⟨1, .str "Widget", .num (.ofInt 5), "2024-01-01T00:00:00.000Z"⟩
            "https://shop.s3.us-east-1.amazonaws.com/product_1.json")
      ∧ (getProduct sampleEnv (createProduct sampleEnv World.init widget).world 1).result
          = .sent 200 (.row ⟨1, .str "Widget", .num (.ofInt 5),
              some "https://shop.s3.us-east-1.amazonaws.com/product_1.json"⟩) :=
  create_success sampleEnv World.init widget (by decide) (by decide) (by decide) (by decide) (by decide)
    (by decide) sampleEnv (by decide)

/-- C2: the create handler answers 400 with an `{error}` body exactly when
`name` or `price` is falsy (a missing field is `undefined`; in particular a
missing name and a price of `0`), and then it issues no call at all: no
insert, no upload, no update, and the state is unchanged. -/
theorem create_validation (env : Env) (w : World) (body : ReqBody) :
    let out := createProduct env w body
    ((∃ msg, out.result = .sent 400 (.error msg))
        ↔ (body.name.truthy = false ∨ body.price.truthy = false))
      ∧ ((body.name.truthy = false ∨ body.price.truthy = false) →
          out.result = .sent 400 (.error "Faltan datos") ∧ out.calls = [] ∧ out.world = w)
      ∧ (body.name = .undefined → out.result = .sent 400 (.error "Faltan datos"))
      ∧ (∀ neg e, body.price = .num (.finite neg 0 e) →
          out.result = .sent 400 (.error "Faltan datos")) := by
  intro out
  have hfalsy : (body.name.truthy = false ∨ body.price.truthy = false) →
      out = ⟨w, [], .sent 400 (.error "Faltan datos")⟩ := by
    intro h
    simp only [out, createProduct]
    rw [if_pos (by rcases h with h | h <;> simp [h])]
  refine ⟨⟨?_, ?_⟩, ?_, ?_, ?_⟩
  · rintro ⟨msg, hmsg⟩
    by_contra hne
    simp only [not_or, Bool.not_eq_false] at hne
    revert hmsg
    simp only [out, createProduct, hne.1, hne.2, internalError]
    cases env.dbRejects 0 <;> cases env.s3Rejects <;> cases env.dbRejects 1 <;> simp
  · intro h
    exact ⟨_, by rw [hfalsy h]⟩
  · intro h
    rw [hfalsy h]
    exact ⟨rfl, rfl, rfl⟩
  · intro h
    rw [hfalsy (Or.inl (by rw [h]; rfl))]
  · intro neg e h
    rw [hfalsy (Or.inr (by rw [h]; rfl))]

/-- Witness: a price of `0`. -/
theorem create_validation_witness :
    (createProduct sampleEnv World.init ⟨.str "Widget", .num .zero⟩).result = .sent 400 (.error "Faltan datos")
      ∧ (createProduct sampleEnv World.init ⟨.str "Widget", .num .zero⟩).calls = []
      ∧ (createProduct sampleEnv World.init ⟨.str "Widget", .num .zero⟩).world = World.init :=
  (create_validation sampleEnv World.init ⟨.str "Widget", .num .zero⟩).2.1 (Or.inr (by decide))

/-- C3: a valid create request whose insert resolves and whose upload or
fileUrl update rejects is answered 500 with an `{error}` body; the table is
the one the insert left (no rollback), so the inserted row is in it with its
name and price and a null fileUrl; when the upload is what rejected, the bucket
is unchanged, so it holds no object under `product_<id>.json`, the file name of
the generated id being unused before the request. -/
theorem create_failure_after_insert (env : Env) (w : World) (body : ReqBody)
    (hname : body.name.truthy = true) (hprice : body.price.truthy = true)
    (hinsert : env.dbRejects 0 = false)
    (hfail : env.s3Rejects = true ∨ env.dbRejects 1 = true) :
    let id := (w.db.insert body.name body.price).2
    let out := createProduct env w body
    out.result = .sent 500 (.error "Error interno del servidor")
      ∧ (⟨id, body.name, body.price, none⟩ : Row) ∈ out.world.db.rows
      ∧ out.world.db = (w.db.insert body.name body.price).1
      ∧ (env.s3Rejects = true →
          out.world.s3 = w.s3
            ∧ out.calls = [.dbInsert body.name body.price,
                .s3Put (fileName id) ⟨id, body.name, body.price, env.now⟩ "application/json"]
            ∧ (w.s3.get (fileName id) = none → out.world.s3.get (fileName id) = none)) := by
  intro id out
  have hmem : (⟨id, body.name, body.price, none⟩ : Row)
      ∈ (w.db.insert body.name body.price).1.rows := by
    simp [Db.insert, id, bind_of_truthy hname, bind_of_truthy hprice]
  cases hs3 : env.s3Rejects with
  | true =>
    have hout : out = ⟨⟨(w.db.insert body.name body.price).1, w.s3⟩,
        [.dbInsert body.name body.price,
         .s3Put (fileName id) ⟨id, body.name, body.price, env.now⟩ "application/json"],
        internalError⟩ := by
      simp only [out, createProduct, hname, hprice, hinsert, hs3, id]
      simp
    rw [hout]
    exact ⟨rfl, hmem, rfl, fun _ => ⟨rfl, rfl, fun hkey => hkey⟩⟩
  | false =>
    have hupd : env.dbRejects 1 = true := by
      rcases hfail with h | h
      · rw [hs3] at h; exact absurd h (by decide)
      · exact h
    have hout : out = ⟨⟨(w.db.insert body.name body.price).1,
          w.s3.put (fileName id) ⟨⟨id, body.name, body.price, env.now⟩, "application/json"⟩⟩,
        [.dbInsert body.name body.price,
         .s3Put (fileName id) ⟨id, body.name, body.price, env.now⟩ "application/json",
         .dbSetFileUrl (publicUrl env.bucket env.region (fileName id)) id],
        internalError⟩ := by
      simp only [out, createProduct, hname, hprice, hinsert, hs3, hupd, id]
      simp
    rw [hout]
    exact ⟨rfl, hmem, rfl, fun h => absurd h (by decide)⟩

/-- Witness: the upload of `widget` rejects. -/
theorem create_failure_after_insert_witness :
    (createProduct uploadFailsEnv World.init widget).result
        = .sent 500 (.error "Error interno del servidor")
      ∧ (⟨1, .str "Widget", .num (.ofInt 5), none⟩ : Row)
          ∈ (createProduct uploadFailsEnv World.init widget).world.db.rows
      ∧ (createProduct uploadFailsEnv World.init widget).world.s3.get "product_1.json" = none :=
  have h := create_failure_after_insert uploadFailsEnv World.init widget (by decide) (by decide)
    (by decide) (Or.inl (by decide))
  ⟨h.1, h.2.1, (h.2.2.2 (by decide)).2.2 (by decide)⟩

/-! ## The get-one, update and delete handlers -/

theorem selectById_eq_nil_iff (db : Db) (id : Int) :
    db.selectById id = [] ↔ ∀ r ∈ db.rows, r.id ≠ id := by
  simp [Db.selectById, List.filter_eq_nil_iff]

theorem mem_of_selectById {db : Db} {id : Int} {r : Row} {rest : List Row}
    (h : db.selectById id = r :: rest) : r ∈ db.rows ∧ r.id = id := by
  have hm : r ∈ db.selectById id := by rw [h]; exact List.mem_cons_self _ _
  simpa [Db.selectById, List.mem_filter] using hm

theorem selectById_deleteById (db : Db) (id : Int) : (db.deleteById id).selectById id = [] := by
  rw [selectById_eq_nil_iff]
  intro r hr
  simp only [Db.deleteById, List.mem_filter, decide_eq_true_eq] at hr
  exact hr.2

theorem Bucket.get_delete_self (b : Bucket) (key : String) :
    (b.delete (some key)).get key = none := by
  simp only [Bucket.get, Bucket.delete, Option.map_eq_none', List.find?_eq_none]
  intro e he
  simp only [List.mem_filter] at he
  simpa using he.2

theorem Bucket.get_delete_of_none (b : Bucket) (key : Option String) (k : String)
    (h : b.get k = none) : (b.delete key).get k = none := by
  cases key with
  | none => exact h
  | some key =>
    simp only [Bucket.get, Bucket.delete, Option.map_eq_none', List.find?_eq_none] at h ⊢
    intro e he
    exact h e (List.mem_filter.mp he).1

theorem Bucket.get_put_of_ne (b : Bucket) (key k : String) (obj : S3Object)
    (hne : k ≠ key) (h : b.get k = none) : (b.put key obj).get k = none := by
  simp only [Bucket.get, Bucket.put, Option.map_eq_none', List.find?_eq_none] at h ⊢
  intro e he
  rcases List.mem_cons.mp he with rfl | he
  · simpa using fun e => hne e.symm
  · exact h e (List.mem_filter.mp he).1

/-- C5: when no row has the id, the delete handler issues its select and
nothing else, neither an object delete nor a row delete, so the table and the
bucket are unchanged; with the select resolved it answers 404 with an
`{error}` body. -/
theorem delete_not_found (env : Env) (w : World) (id : Int)
    (hnone : ∀ r ∈ w.db.rows, r.id ≠ id) :
    let out := deleteProduct env w id
    (env.dbRejects 0 = false → out.result = .sent 404 (.error "Producto no encontrado"))
      ∧ out.calls = [.dbSelectFileUrl id]
      ∧ out.world = w := by
  intro out
  have hsel := (selectById_eq_nil_iff w.db id).mpr hnone
  cases hq : env.dbRejects 0 <;> simp [out, deleteProduct, hq, hsel]

/-- Witness: id 7 in the state holding only product 1. -/
theorem delete_not_found_witness :
    (deleteProduct sampleEnv sampleWorld 7).result
        = .sent 404 (.error "Producto no encontrado")
      ∧ (deleteProduct sampleEnv sampleWorld 7).calls = [.dbSelectFileUrl 7]
      ∧ (deleteProduct sampleEnv sampleWorld 7).world = sampleWorld :=
  have h := delete_not_found sampleEnv sampleWorld 7 (by decide)
  ⟨h.1 (by decide), h.2.1, h.2.2⟩

/-- C6: the get-one handler never changes the table or the bucket; with its
select resolved, it answers 404 with an `{error}` body exactly when no row has
the id, and otherwise answers 200 with a row of the table that has the id, the
first one in table order. -/
theorem getProduct_spec (env : Env) (w : World) (id : Int) :
    let out := getProduct env w id
    out.world = w
      ∧ (env.dbRejects 0 = false →
          ((∃ msg, out.result = .sent 404 (.error msg)) ↔ ∀ r ∈ w.db.rows, r.id ≠ id)
            ∧ ((∃ r ∈ w.db.rows, r.id = id) →
                ∃ r, w.db.rows.find? (fun r => decide (r.id = id)) = some r
                  ∧ r ∈ w.db.rows ∧ r.id = id ∧ out.result = .sent 200 (.row r))) := by
  intro out
  constructor
  · simp only [out, getProduct]
    split_ifs
    · rfl
    · split <;> rfl
  · intro hq
    rw [← selectById_eq_nil_iff]
    cases hsel : w.db.selectById id with
    | nil =>
      have hout : out.result = .sent 404 (.error "Producto no encontrado") := by
        simp [out, getProduct, hq, hsel]
      refine ⟨⟨fun _ => rfl, fun _ => ⟨_, hout⟩⟩, ?_⟩
      rintro ⟨r, hr, hid⟩
      exact absurd hid ((selectById_eq_nil_iff w.db id).mp hsel r hr)
    | cons r rest =>
      have hout : out.result = .sent 200 (.row r) := by
        simp [out, getProduct, hq, hsel]
      have hmem := mem_of_selectById hsel
      refine ⟨⟨?_, fun h => absurd h (by simp)⟩, fun _ => ⟨r, ?_, hmem.1, hmem.2, hout⟩⟩
      · rintro ⟨msg, hmsg⟩
        rw [hout] at hmsg
        simp at hmsg
      · have := congrArg List.head? hsel
        simpa [Db.selectById, List.filter_head?] using this

/-- Witness: id 1 in the state holding only product 1. -/
theorem getProduct_spec_witness :
    (getProduct sampleEnv sampleWorld 1).world = sampleWorld
      ∧ ∃ r, sampleWorld.db.rows.find? (fun r => decide (r.id = 1)) = some r
          ∧ r ∈ sampleWorld.db.rows ∧ r.id = 1
          ∧ (getProduct sampleEnv sampleWorld 1).result = .sent 200 (.row r) :=
  have h := getProduct_spec sampleEnv sampleWorld 1
  ⟨h.1, (h.2 (by decide)).2 (by decide)⟩

/-- C7: for every state, id and body, the update handler leaves the bucket
unchanged, keeps the `fileUrl` and `id` columns of every row, the number of
rows and the id counter, keeps every row whose id differs from the given one
as it was, and, its update resolved, answers with the fixed success message
whether or not a row has the id. -/
theorem update_frame (env : Env) (w : World) (id : Int) (body : ReqBody) :
    let out := updateProduct env w id body
    out.world.s3 = w.s3
      ∧ out.world.db.rows.map (·.fileUrl) = w.db.rows.map (·.fileUrl)
      ∧ out.world.db.rows.map (·.id) = w.db.rows.map (·.id)
      ∧ out.world.db.rows.length = w.db.rows.length
      ∧ out.world.db.autoIncrement = w.db.autoIncrement
      ∧ (∀ (i : Nat) (r : Row), w.db.rows[i]? = some r → r.id ≠ id →
          out.world.db.rows[i]? = some r)
      ∧ (env.dbRejects 0 = false → out.result = .sent 200 (.message "Producto actualizado")) := by
  intro out
  cases hq : env.dbRejects 0 with
  | true =>
    have hout : out = ⟨w, [.dbSetNamePrice body.name body.price id], .unhandled .rejected⟩ := by
      simp [out, updateProduct, hq]
    rw [hout]
    exact ⟨rfl, rfl, rfl, rfl, rfl, fun _ _ h _ => h, fun h => absurd h (by decide)⟩
  | false =>
    have hout : out = ⟨⟨w.db.setNamePrice body.name body.price id, w.s3⟩,
        [.dbSetNamePrice body.name body.price id],
        .sent 200 (.message "Producto actualizado")⟩ := by
      simp [out, updateProduct, hq]
    rw [hout]
    refine ⟨rfl, ?_, ?_, ?_, rfl, ?_, fun _ => rfl⟩
    · simp only [Db.setNamePrice, List.map_map]
      apply List.map_congr_left
      intro r _
      simp only [Function.comp_apply]
      split_ifs <;> rfl
    · simp only [Db.setNamePrice, List.map_map]
      apply List.map_congr_left
      intro r _
      simp only [Function.comp_apply]
      split_ifs <;> rfl
    · simp [Db.setNamePrice]
    · intro i r hi hne
      simp only [Db.setNamePrice, List.getElem?_map, hi, Option.map_some', if_neg hne]

/-- Witness: an update with both fields undefined. -/
theorem update_frame_witness :
    (updateProduct sampleEnv sampleWorld 1 ⟨.undefined, .undefined⟩).result
        = .sent 200 (.message "Producto actualizado")
      ∧ (updateProduct sampleEnv sampleWorld 1 ⟨.undefined, .undefined⟩).world.s3
          = sampleWorld.s3 :=
  have h := update_frame sampleEnv sampleWorld 1 ⟨.undefined, .undefined⟩
  ⟨h.2.2.2.2.2.2 (by decide), h.1⟩

/-- C8: when the row of the id exists with a null fileUrl, the delete handler
ends with an unhandled exception, the `TypeError` of `null.split` once its
select resolved, and no typed response; it has issued only the select, no
object delete and no row delete, so the state is unchanged and the row is
still in the table. -/
theorem delete_null_fileUrl (env : Env) (w : World) (id : Int) (r : Row) (rest : List Row)
    (hrow : w.db.selectById id = r :: rest) (hnull : r.fileUrl = none) :
    let out := deleteProduct env w id
    (∃ e, out.result = .unhandled e)
      ∧ (env.dbRejects 0 = false → out.result = .unhandled .typeError)
      ∧ out.calls = [.dbSelectFileUrl id]
      ∧ out.world = w
      ∧ r ∈ out.world.db.rows := by
  intro out
  have hmem := (mem_of_selectById hrow).1
  cases hq : env.dbRejects 0 with
  | true =>
    have hout : out = ⟨w, [.dbSelectFileUrl id], .unhandled .rejected⟩ := by
      simp [out, deleteProduct, hq]
    rw [hout]
    exact ⟨⟨_, rfl⟩, fun h => absurd h (by decide), rfl, rfl, hmem⟩
  | false =>
    have hout : out = ⟨w, [.dbSelectFileUrl id], .unhandled .typeError⟩ := by
      simp [out, deleteProduct, hq, hrow, hnull]
    rw [hout]
    exact ⟨⟨_, rfl⟩, fun _ => rfl, rfl, rfl, hmem⟩

/-- Witness: the row left by a create whose upload
rejected. -/
theorem delete_null_fileUrl_witness :
    (deleteProduct sampleEnv halfCreatedWorld 1).result = .unhandled .typeError
      ∧ (deleteProduct sampleEnv halfCreatedWorld 1).calls = [.dbSelectFileUrl 1]
      ∧ (deleteProduct sampleEnv halfCreatedWorld 1).world = halfCreatedWorld :=
  have h := delete_null_fileUrl sampleEnv halfCreatedWorld 1
    ⟨1, .str "Widget", .num (.ofInt 5), none⟩ [] (by decide) (by decide)
  ⟨h.2.1 (by decide), h.2.2.1, h.2.2.2.1⟩

/-! ## The key derived by the delete handler -/

/-- C9 as stated fails: for this fileUrl the remainder after the first `.com/`
is `a.com/product_1.json`, and the key the handler derives is `a`. -/
theorem deleteKey_ne_remainder :
    remainderKey "https://shop.com/a.com/product_1.json" = some "a.com/product_1.json"
      ∧ deleteKey "https://shop.com/a.com/product_1.json" = some "a" := by
  decide

/-- C9 (amended): the key the delete handler derives from a fileUrl string is
the part that follows the first occurrence of `.com/` and stops at the next
occurrence of `.com/`, or at the end of the string when `.com/` does not occur
again; it is `undefined` when the fileUrl contains no `.com/`. -/
theorem deleteKey_segment (fileUrl : String) :
    (¬ Occurs ".com/" fileUrl → deleteKey fileUrl = none)
      ∧ (∀ pre rest, fileUrl = pre ++ ".com/" ++ rest → ¬ Occurs ".com/" (pre ++ ".com") →
          (¬ Occurs ".com/" rest → deleteKey fileUrl = some rest)
            ∧ (∀ mid tail, rest = mid ++ ".com/" ++ tail →
                ¬ Occurs ".com/" (mid ++ ".com") → deleteKey fileUrl = some mid)) := by
  refine ⟨fun h => ?_, ?_⟩
  · rw [deleteKey, jsSplit_of_not_occurs _ h]
    rfl
  · rintro pre rest rfl hfirst
    refine ⟨fun h => ?_, ?_⟩
    · rw [deleteKey, jsSplit_of_first _ _ hfirst, jsSplit_of_not_occurs _ h]
      rfl
    · rintro mid tail rfl hmid
      rw [deleteKey, jsSplit_of_first _ _ hfirst, jsSplit_of_first _ _ hmid]
      simp

/-- Witness: a fileUrl with two occurrences of `.com/`. -/
theorem deleteKey_segment_witness :
    deleteKey "https://shop.com/a.com/product_1.json" = some "a" :=
  (((deleteKey_segment "https://shop.com/a.com/product_1.json").2
    "https://shop" "a.com/product_1.json" (by decide) (by decide)).2
    "a" "product_1.json" (by decide) (by decide))

/-- C10: for a bucket name and a region without `/` and any integer id,
splitting the URL that create builds,
`"https://" + bucket + ".s3." + region + ".amazonaws.com/product_" + id + ".json"`,
on `.com/` and taking element 1 gives the key `"product_" + id + ".json"` under
which create uploaded: the delete handler's key for create's `fileUrl` is
create's `fileName`. -/
theorem deleteKey_createUrl (bucket region : String) (id : Int)
    (hb : '/' ∉ bucket.toList) (hr : '/' ∉ region.toList) :
    (jsSplit ("https://" ++ bucket ++ ".s3." ++ region ++ ".amazonaws.com/product_"
        ++ toString id ++ ".json") ".com/")[1]?
        = some ("product_" ++ toString id ++ ".json")
      ∧ deleteKey (publicUrl bucket region (fileName id)) = some (fileName id) := by
  have h := deleteKey_publicUrl_fileName bucket region id hb hr
  refine ⟨?_, h⟩
  rw [publicUrl_fileName] at h
  exact h

/-- Witness: bucket `shop`, region `us-east-1`, id 12. -/
theorem deleteKey_createUrl_witness :
    (jsSplit ("https://" ++ "shop" ++ ".s3." ++ "us-east-1" ++ ".amazonaws.com/product_"
        ++ toString (12 : Int) ++ ".json") ".com/")[1]?
      = some ("product_" ++ toString (12 : Int) ++ ".json") :=
  (deleteKey_createUrl "shop" "us-east-1" 12 (by decide) (by decide)).1

/-! ## The state invariant

`World.Consistent` holds in the empty state and is kept by every handler,
whatever calls reject; it gives the freshness assumptions made on the state
by the theorems on the create handler. -/

theorem consistent_init (bucket region : String) : World.init.Consistent bucket region := by
  refine ⟨by simp [World.init], fun k _ => rfl, by simp [World.init]⟩

theorem consistent_insert {bucket region : String} {w : World} (name price : JsVal)
    (h : w.Consistent bucket region) :
    World.Consistent bucket region ⟨(w.db.insert name price).1, w.s3⟩ := by
  obtain ⟨h1, h2, h3⟩ := h
  refine ⟨?_, ?_, ?_⟩
  · intro r hr
    simp only [Db.insert, List.mem_append, List.mem_singleton] at hr ⊢
    rcases hr with hr | rfl
    · have := h1 r hr
      omega
    · simp
  · intro k hk
    simp only [Db.insert] at hk
    exact h2 k (by omega)
  · intro r hr url hurl
    simp only [Db.insert, List.mem_append, List.mem_singleton] at hr
    rcases hr with hr | rfl
    · exact h3 r hr url hurl
    · simp at hurl

theorem consistent_put {bucket region : String} {w : World} (id : Int) (obj : S3Object)
    (hid : id < w.db.autoIncrement) (h : w.Consistent bucket region) :
    World.Consistent bucket region ⟨w.db, w.s3.put (fileName id) obj⟩ := by
  obtain ⟨h1, h2, h3⟩ := h
  refine ⟨h1, ?_, h3⟩
  intro k hk
  have hne : fileName k ≠ fileName id := by
    intro e
    have := fileName_injective e
    simp only at hk
    omega
  exact Bucket.get_put_of_ne _ _ _ _ hne (h2 k hk)

theorem consistent_setFileUrl {bucket region : String} {w : World} (id : Int)
    (h : w.Consistent bucket region) :
    World.Consistent bucket region
      ⟨w.db.setFileUrl (publicUrl bucket region (fileName id)) id, w.s3⟩ := by
  obtain ⟨h1, h2, h3⟩ := h
  refine ⟨?_, h2, ?_⟩
  · intro r hr
    simp only [Db.setFileUrl, List.mem_map] at hr ⊢
    obtain ⟨r0, hr0, rfl⟩ := hr
    split_ifs <;> exact h1 r0 hr0
  · intro r hr url hurl
    simp only [Db.setFileUrl, List.mem_map] at hr
    obtain ⟨r0, hr0, rfl⟩ := hr
    split_ifs at hurl ⊢ with hid
    · simp only [Option.some.injEq] at hurl
      rw [← hurl, hid]
    · exact h3 r0 hr0 url hurl

theorem consistent_setNamePrice {bucket region : String} {w : World} (name price : JsVal)
    (id : Int) (h : w.Consistent bucket region) :
    World.Consistent bucket region ⟨w.db.setNamePrice name price id, w.s3⟩ := by
  obtain ⟨h1, h2, h3⟩ := h
  refine ⟨?_, h2, ?_⟩
  · intro r hr
    simp only [Db.setNamePrice, List.mem_map] at hr ⊢
    obtain ⟨r0, hr0, rfl⟩ := hr
    split_ifs <;> exact h1 r0 hr0
  · intro r hr url hurl
    simp only [Db.setNamePrice, List.mem_map] at hr
    obtain ⟨r0, hr0, rfl⟩ := hr
    split_ifs at hurl ⊢ <;> exact h3 r0 hr0 url hurl

theorem consistent_s3Delete {bucket region : String} {w : World} (key : Option String)
    (h : w.Consistent bucket region) :
    World.Consistent bucket region ⟨w.db, w.s3.delete key⟩ :=
  ⟨h.1, fun k hk => Bucket.get_delete_of_none _ _ _ (h.2.1 k hk), h.2.2⟩

theorem consistent_deleteById {bucket region : String} {w : World} (id : Int)
    (h : w.Consistent bucket region) :
    World.Consistent bucket region ⟨w.db.deleteById id, w.s3⟩ := by
  obtain ⟨h1, h2, h3⟩ := h
  refine ⟨?_, h2, ?_⟩
  · intro r hr
    simp only [Db.deleteById, List.mem_filter] at hr
    exact h1 r hr.1
  · intro r hr url hurl
    simp only [Db.deleteById, List.mem_filter] at hr
    exact h3 r hr.1 url hurl

/-- The create handler keeps the state invariant, whichever calls reject. -/
theorem createProduct_consistent (env : Env) (w : World) (body : ReqBody)
    (h : w.Consistent env.bucket env.region) :
    (createProduct env w body).world.Consistent env.bucket env.region := by
  have hi := consistent_insert body.name body.price h
  have hp := consistent_put (w := ⟨(w.db.insert body.name body.price).1, w.s3⟩)
    w.db.autoIncrement ⟨⟨w.db.autoIncrement, body.name, body.price, env.now⟩, "application/json"⟩
    (by simp [Db.insert]) hi
  have hu := consistent_setFileUrl w.db.autoIncrement hp
  simp only [createProduct]
  split_ifs
  · exact h
  · exact h
  · exact hi
  · exact hp
  · exact hu

/-- The update handler keeps the state invariant. -/
theorem updateProduct_consistent (env : Env) (w : World) (id : Int) (body : ReqBody)
    {bucket region : String} (h : w.Consistent bucket region) :
    (updateProduct env w id body).world.Consistent bucket region := by
  simp only [updateProduct]
  split_ifs
  · exact h
  · exact consistent_setNamePrice _ _ _ h

/-- The delete handler keeps the state invariant, whichever calls reject. -/
theorem deleteProduct_consistent (env : Env) (w : World) (id : Int)
    {bucket region : String} (h : w.Consistent bucket region) :
    (deleteProduct env w id).world.Consistent bucket region := by
  simp only [deleteProduct]
  split_ifs <;>
    first
    | exact h
    | (split
       · exact h
       · split
         · exact h
         · first
           | exact h
           | exact consistent_s3Delete _ h
           | exact consistent_deleteById id (consistent_s3Delete _ h))

/-- The read-only handlers return the state they were given. -/
theorem readOnly_world (env : Env) (w : World) (id : Int) :
    (listProducts env w).world = w ∧ (getProduct env w id).world = w := by
  constructor
  · simp only [listProducts]
    split_ifs <;> rfl
  · simp only [getProduct]
    split_ifs
    · rfl
    · split <;> rfl

/-- In a consistent state the ids of the table are below the counter and the
file name of the next generated id is unused. -/
theorem consistent_fresh {bucket region : String} {w : World} (name price : JsVal)
    (h : w.Consistent bucket region) :
    (∀ r ∈ w.db.rows, r.id < w.db.autoIncrement)
      ∧ w.s3.get (fileName (w.db.insert name price).2) = none :=
  ⟨h.1, h.2.1 _ (le_refl _)⟩

/-- Every reachable state is consistent. -/
theorem reachable_consistent {bucket region : String} {w : World}
    (h : Reachable bucket region w) : w.Consistent bucket region := by
  induction h with
  | init => exact consistent_init bucket region
  | create env w body hb hr _ ih =>
    subst hb hr
    exact createProduct_consistent env w body ih
  | update env w id body _ ih => exact updateProduct_consistent env w id body ih
  | delete env w id _ ih => exact deleteProduct_consistent env w id ih

/-! ## Delete on the states the service reaches -/

/-- C4: in every state the service reaches under a bucket name and a region
free of `/`, for every id whose row exists with a non-null fileUrl, when the
select, the object delete and the row delete resolve, the delete handler
answers 200 with the fixed message; in the resulting state no row has that id,
a get-one for it answers 404, and the bucket holds no mirrored object of the
product, that is no object under `product_<id>.json`. -/
theorem delete_success (env : Env) (w : World) (id : Int) (r : Row) (rest : List Row)
    (fileUrl : String)
    (hreach : Reachable env.bucket env.region w)
    (hb : '/' ∉ env.bucket.toList) (hr : '/' ∉ env.region.toList)
    (hrow : w.db.selectById id = r :: rest)
    (hurl : r.fileUrl = some fileUrl)
    (hselect : env.dbRejects 0 = false) (hs3 : env.s3Rejects = false)
    (hdelete : env.dbRejects 1 = false)
    (env2 : Env) (hselect2 : env2.dbRejects 0 = false) :
    let out := deleteProduct env w id
    out.result = .sent 200 (.message "Producto eliminado + archivo JSON eliminado de S3")
      ∧ out.calls = [.dbSelectFileUrl id, .s3Delete (some (fileName id)), .dbDelete id]
      ∧ (∀ r2 ∈ out.world.db.rows, r2.id ≠ id)
      ∧ (getProduct env2 out.world id).result = .sent 404 (.error "Producto no encontrado")
      ∧ out.world.s3.get (fileName id) = none := by
  intro out
  have hmem := mem_of_selectById hrow
  have hpub : fileUrl = publicUrl env.bucket env.region (fileName id) := by
    have := (reachable_consistent hreach).2.2 r hmem.1 fileUrl hurl
    rw [hmem.2] at this
    exact this
  have hkey : deleteKey fileUrl = some (fileName id) := by
    rw [hpub]
    exact deleteKey_publicUrl_fileName _ _ id hb hr
  have hout : out = ⟨⟨w.db.deleteById id, w.s3.delete (some (fileName id))⟩,
      [.dbSelectFileUrl id, .s3Delete (some (fileName id)), .dbDelete id],
      .sent 200 (.message "Producto eliminado + archivo JSON eliminado de S3")⟩ := by
    simp only [out, deleteProduct, hselect, hrow, hurl, hs3, hdelete, hkey]
    simp
  rw [hout]
  refine ⟨rfl, rfl, ?_, ?_, Bucket.get_delete_self _ _⟩
  · exact (selectById_eq_nil_iff _ _).mp (selectById_deleteById w.db id)
  · simp only [getProduct, hselect2, selectById_deleteById]
    simp

/-- Witness: deleting the product created from `widget` in the empty state. -/
theorem delete_success_witness :
    (deleteProduct sampleEnv sampleWorld 1).result
        = .sent 200 (.message "Producto eliminado + archivo JSON eliminado de S3")
      ∧ (getProduct sampleEnv (deleteProduct sampleEnv sampleWorld 1).world 1).result
          = .sent 404 (.error "Producto no encontrado")
      ∧ (deleteProduct sampleEnv sampleWorld 1).world.s3.get "product_1.json" = none :=
  have h := delete_success sampleEnv sampleWorld 1
    ⟨1, .str "Widget", .num (.ofInt 5),
      some "https://shop.s3.us-east-1.amazonaws.com/product_1.json"⟩ []
    "https://shop.s3.us-east-1.amazonaws.com/product_1.json"
    (Reachable.create sampleEnv World.init widget rfl rfl Reachable.init)
    (by decide) (by decide) (by decide) (by decide) (by decide) (by decide) (by decide)
    sampleEnv (by decide)
  ⟨h.1, h.2.2.2.1, h.2.2.2.2⟩

end ProductService
